import Mathlib

/-!
Verification of the dobbin transactional object database (an in-process,
single-file object database with MVCC) against its specification.  The
Python sources are shallowly embedded as Lean functions: wall-clock
timestamps (Python floats used only for ordering) are modelled as
rationals, byte strings as lists of naturals below 256, and Python
exceptions as explicit error results.
-/

namespace Dobbin

/-- Wall-clock timestamps. `time.time()` returns a float; the code only
compares timestamps, so they are modelled as rationals. -/
abbrev Timestamp := ℚ

/-! ## Manager.commit (dobbin/manager.py) -/

/-- Exceptions raised by `Manager.commit` (dobbin/exc.py). -/
inductive CommitError where
  | invalidObjectReference
  | writeConflictError
deriving DecidableEq, Repr

/-- Persistent object as seen by `Manager.commit` (manager.py, lines
122-135): an identity, the owning database (`_p_jar`, by identity), the
`_p_serial` timestamp, and whether a `_p_resolve_conflict` attribute is
present (the class default is `None`). -/
structure PObj where
  ident : Nat
  jar : Option Nat
  serial : Option Timestamp
  hasResolver : Bool
deriving DecidableEq, Repr

/-- Comparison `obj._p_serial > timestamp` from manager.py line 130.  A
never-committed object has `_p_serial = None`, which compares below every
number (Python 2 ordering; the package also targets Python 2, importing
`cPickle` when available). -/
def serialGt (serial : Option Timestamp) (ts : Timestamp) : Bool :=
  match serial with
  | none => false
  | some s => decide (ts < s)

/-- Embedding of `Manager.commit` (manager.py lines 112-138) acting on the
objects registered in the current thread, with `timestamp` the thread's
transaction-begin timestamp captured before it is refreshed.  For each
object the jar is validated, then `obj._p_serial > timestamp` raises
`WriteConflictError` directly; otherwise the object is handed to the
abstract `write` hook (Manager docstring: subclasses implement
`write(obj)`), modelled as appending the object to the list of written
versions.  The `_p_resolve_conflict` attribute is never consulted on this
path. -/
def managerCommit (self : Nat) (ts : Timestamp) :
    List PObj → Except CommitError (List PObj)
  | [] => .ok []
  | o :: rest =>
    if o.jar ≠ some self then .error .invalidObjectReference
    else if serialGt o.serial ts then .error .writeConflictError
    else (managerCommit self ts rest).map (o :: ·)

/-- C1 counterexample: an object owned by this database whose serial (2)
exceeds the transaction-begin timestamp (1) and which carries a conflict
resolver.  The claim says commit attempts conflict resolution and, on
success, writes the resolved state; the code raises `WriteConflictError`
without ever consulting the resolver. -/
theorem C1_counterexample :
    managerCommit 0 1 [⟨1, some 0, some 2, true⟩] =
      .error .writeConflictError := by
  simp [managerCommit, serialGt]

/-- C1 (amended): `Manager.commit` validates jar ownership, raising
`InvalidObjectReference` when `obj._p_jar` is not this database; when the
object's serial exceeds the transaction-begin timestamp it raises
`WriteConflictError` directly, regardless of any conflict resolver
(resolution exists only on the read/catch-up path in `Manager._read`);
otherwise the object's version is written. -/
theorem C1_commit (self : Nat) (ts : Timestamp) :
    (∀ os : List PObj,
      (∀ o ∈ os, o.jar = some self ∧ serialGt o.serial ts = false) →
        managerCommit self ts os = .ok os)
    ∧ (∀ (o : PObj) (pre rest : List PObj), o.jar = some self →
        serialGt o.serial ts = true →
        (∀ p ∈ pre, p.jar = some self ∧ serialGt p.serial ts = false) →
          managerCommit self ts (pre ++ o :: rest) =
            .error .writeConflictError)
    ∧ (∀ (o : PObj) (pre rest : List PObj), o.jar ≠ some self →
        (∀ p ∈ pre, p.jar = some self ∧ serialGt p.serial ts = false) →
          managerCommit self ts (pre ++ o :: rest) =
            .error .invalidObjectReference) := by
  refine ⟨?_, ?_, ?_⟩
  · intro os h
    induction os with
    | nil => rfl
    | cons o rest ih =>
      have ho := h o (by simp)
      have ih' := ih fun p hp => h p (by simp [hp])
      simp [managerCommit, ho.1, ho.2, ih', Except.map]
  · intro o pre rest ho hs hpre
    induction pre with
    | nil => simp [managerCommit, ho, hs]
    | cons p ps ih =>
      have hp := hpre p (by simp)
      have ih' := ih fun q hq => hpre q (by simp [hq])
      simp [managerCommit, hp.1, hp.2, ih', Except.map]
  · intro o pre rest ho hpre
    induction pre with
    | nil => simp [managerCommit, ho]
    | cons p ps ih =>
      have hp := hpre p (by simp)
      have ih' := ih fun q hq => hpre q (by simp [hq])
      simp [managerCommit, hp.1, hp.2, ih', Except.map]

/-- Witness for `C1_commit` at concrete inputs: a clean object is written,
a conflicting one (even with a resolver) raises `WriteConflictError`, and a
foreign-jar object raises `InvalidObjectReference`. -/
theorem C1_commit_witness :
    managerCommit 0 1 [⟨1, some 0, some 1, false⟩] =
        .ok [⟨1, some 0, some 1, false⟩] ∧
    managerCommit 0 1 [⟨2, some 0, some 2, true⟩] =
        .error .writeConflictError ∧
    managerCommit 0 1 [⟨3, some 7, none, false⟩] =
        .error .invalidObjectReference := by
  refine ⟨(C1_commit 0 1).1 _ ?_, ?_, ?_⟩
  · intro o ho
    simp only [List.mem_singleton] at ho
    subst ho
    exact ⟨rfl, by norm_num [serialGt]⟩
  · exact (C1_commit 0 1).2.1 ⟨2, some 0, some 2, true⟩ [] [] rfl
      (by norm_num [serialGt]) (by simp)
  · exact (C1_commit 0 1).2.2 ⟨3, some 7, none, false⟩ [] [] (by simp)
      (by simp)

/-! ## Timestamp assignment (dobbin/utils.py, manager.py) -/

/-- Per-thread timestamp state of a `Manager` together with the `_p_serial`
of one tracked object (manager.py `ThreadState` plus persistent.py
`_p_serial`).  The wall clock is an external input: `clock n` is the value
`time.time()` returns on its `n`-th call, and `tick` counts calls made so
far. -/
structure TsState where
  tick : Nat
  threadTs : Option Timestamp
  serial : Option Timestamp
deriving DecidableEq, Repr

/-- Embedding of `make_timestamp` (utils.py lines 6-7): it returns the next
wall-clock reading as-is, with no adjustment enforcing distinctness or
strict monotonicity. -/
def make_timestamp (clock : Nat → Timestamp) (tick : Nat) :
    Timestamp × Nat :=
  (clock tick, tick + 1)

/-- Timestamp refresh performed by `Manager.commit` (manager.py line 120):
`self._thread.timestamp = make_timestamp()`. -/
def commitTimestamp (clock : Nat → Timestamp) (s : TsState) : TsState :=
  let t := make_timestamp clock s.tick
  { s with threadTs := some t.1, tick := t.2 }

/-- Serial update performed by `Manager.tpc_finish` (manager.py line 221)
for an object committed in this transaction: `obj._p_serial =
self._thread.timestamp`. -/
def tpcFinishSerial (s : TsState) : TsState :=
  { s with serial := s.threadTs }

/-- One committed transaction that modified the tracked object: `commit`
assigns the transaction timestamp, `tpc_finish` stamps it onto the
object's serial. -/
def runTx (clock : Nat → Timestamp) (s : TsState) : TsState :=
  tpcFinishSerial (commitTimestamp clock s)

/-- C2 counterexample: with a coarse wall clock that returns the same float
(here 1) on two consecutive `time.time()` calls, two successive committed
transactions are assigned the same timestamp and the object's serial does
not strictly increase across the two commits — the code contains no
tie-breaking.  The claim requires the two timestamps to be distinct and the
serials strictly increasing. -/
theorem C2_counterexample :
    (runTx (fun _ => 1) ⟨0, none, none⟩).threadTs = some 1 ∧
    (runTx (fun _ => 1) (runTx (fun _ => 1) ⟨0, none, none⟩)).threadTs =
      some 1 ∧
    (runTx (fun _ => 1) ⟨0, none, none⟩).serial =
      (runTx (fun _ => 1) (runTx (fun _ => 1) ⟨0, none, none⟩)).serial := by
  refine ⟨rfl, rfl, rfl⟩

/-- C2 (amended): provided the wall-clock source returns strictly
increasing values on successive `time.time()` calls, two successive
committed transactions receive distinct (indeed increasing) timestamps, and
the serial assigned to the tracked object by the second commit is strictly
greater than the serial assigned by the first. -/
theorem C2_timestamps (clock : Nat → Timestamp) (s : TsState)
    (hmono : ∀ i j, i < j → clock i < clock j) :
    (runTx clock s).threadTs ≠ (runTx clock (runTx clock s)).threadTs ∧
    ∃ t1 t2, (runTx clock s).serial = some t1 ∧
      (runTx clock (runTx clock s)).serial = some t2 ∧ t1 < t2 := by
  have h : clock s.tick < clock (s.tick + 1) := hmono _ _ (Nat.lt_succ_self _)
  constructor
  · simp only [runTx, tpcFinishSerial, commitTimestamp, make_timestamp,
      Option.some.injEq, ne_eq]
    exact fun he => absurd he (ne_of_lt h)
  · exact ⟨clock s.tick, clock (s.tick + 1), rfl, rfl, h⟩

/-- Witness for `C2_timestamps` with the strictly increasing clock
`clock i = i` starting from a fresh thread state. -/
theorem C2_timestamps_witness :
    (runTx (fun i => (i : ℚ)) ⟨0, none, none⟩).threadTs ≠
      (runTx (fun i => (i : ℚ))
        (runTx (fun i => (i : ℚ)) ⟨0, none, none⟩)).threadTs ∧
    ∃ t1 t2, (runTx (fun i => (i : ℚ)) ⟨0, none, none⟩).serial = some t1 ∧
      (runTx (fun i => (i : ℚ))
        (runTx (fun i => (i : ℚ)) ⟨0, none, none⟩)).serial = some t2 ∧
      t1 < t2 :=
  C2_timestamps (fun i => (i : ℚ)) ⟨0, none, none⟩
    (fun i j hij => by simp only []; exact_mod_cast hij)

/-! ## Manager.get (dobbin/manager.py lines 140-145) and Broken
(dobbin/persistent.py lines 295-316) -/

/-- Values that can sit in (or come out of) the manager's `_oid2obj` table
or be passed as the `default` argument of `Manager.get`: a persistent
object (by identity), a class object (as passed by the log reader's `load`
closure), the module-level `marker` sentinel that is the parameter default,
Python `None`, or a `Broken` placeholder carrying an oid and optionally a
class. -/
inductive PyVal where
  | objVal (ident : Nat)
  | clsVal (name : String)
  | markerVal
  | noneVal
  | brokenVal (oid : Nat) (cls : Option String)
deriving DecidableEq, Repr

/-- Python exceptions surfaced by the embedded fragments. -/
inductive PyError where
  | typeError
  | attributeError
  | keyError
  | valueError
  | unpicklingError
  | integrityError (count : Nat)
deriving DecidableEq, Repr

/-- Embedding of `Manager.get` (manager.py lines 140-145).  The table is an
association list from oid to value; `default` is the second argument, whose
parameter default is the module-level `marker` sentinel.  On a miss the
default is returned; if it is the sentinel, the code evaluates
`Broken(oid)` — but `Broken.__new__(cls, oid, obj_class)` and
`Broken.__init__(self, oid, cls)` (persistent.py lines 302, 315) both take
two arguments, so the one-argument call raises `TypeError` before anything
is installed.  The result pairs the returned value with the (possibly
updated) table. -/
def managerGet (table : List (Nat × PyVal)) (oid : Nat) (default : PyVal) :
    Except PyError (PyVal × List (Nat × PyVal)) :=
  let obj := ((table.find? (fun e => e.1 = oid)).map (·.2)).getD default
  if obj = .markerVal then
    .error .typeError
  else
    .ok (obj, table)

/-- C3: evaluation of `Manager.get` at the failing inputs.  On a hit the
stored object is returned.  On a miss with a class argument the class
object itself is returned and nothing is installed — not a `Broken`
placeholder carrying the class.  On a miss with no second argument
(default = the `marker` sentinel) the call `Broken(oid)` raises
`TypeError`, because `Broken` requires both an oid and a class — `None` is
never returned and no placeholder is installed. -/
theorem C3_get_behavior :
    managerGet [(0, .objVal 10)] 0 .markerVal =
        .ok (.objVal 10, [(0, .objVal 10)]) ∧
    managerGet [] 7 (.clsVal "Frame") = .ok (.clsVal "Frame", []) ∧
    managerGet [] 7 .markerVal = .error .typeError := by
  refine ⟨rfl, rfl, rfl⟩

/-! ## Identifier codec (dobbin/database.py): helpers

Decimal rendering/parsing models `"%d" % n` and `int(token)`; base64 models
`base64.b64encode`/`b64decode` on byte strings (bytes are naturals below
256). -/

theorem natDigits_div_lt {n : Nat} (h : ¬ n < 10) : n / 10 < n := by
  omega

/-- Decimal digits of a natural number, most significant first (the digits
of `"%d" % n`). -/
def natDigits (n : Nat) : List Nat :=
  if _h : n < 10 then [n] else natDigits (n / 10) ++ [n % 10]
decreasing_by exact natDigits_div_lt _h

/-- Value of a most-significant-first digit list. -/
def digitsVal (ds : List Nat) : Nat :=
  ds.foldl (fun a d => a * 10 + d) 0

theorem digitsVal_append (ds : List Nat) (d : Nat) :
    digitsVal (ds ++ [d]) = digitsVal ds * 10 + d := by
  simp [digitsVal, List.foldl_append]

theorem digitsVal_natDigits (n : Nat) : digitsVal (natDigits n) = n := by
  induction n using Nat.strong_induction_on with
  | _ n ih =>
    rw [natDigits]
    by_cases h : n < 10
    · simp [h, digitsVal]
    · simp only [h, dite_false, digitsVal_append,
        ih (n / 10) (natDigits_div_lt h)]
      omega

theorem natDigits_lt_ten (n : Nat) : ∀ d ∈ natDigits n, d < 10 := by
  induction n using Nat.strong_induction_on with
  | _ n ih =>
    rw [natDigits]
    by_cases h : n < 10
    · simp [h]
    · simp only [h, dite_false]
      intro d hd
      rcases List.mem_append.1 hd with h1 | h2
      · exact ih (n / 10) (natDigits_div_lt h) d h1
      · simp at h2
        omega

theorem natDigits_ne_nil (n : Nat) : natDigits n ≠ [] := by
  rw [natDigits]
  by_cases h : n < 10 <;> simp [h]

/-- Character for a decimal digit, as produced by `"%d"`. -/
def digitChar : Nat → Char
  | 0 => '0' | 1 => '1' | 2 => '2' | 3 => '3' | 4 => '4'
  | 5 => '5' | 6 => '6' | 7 => '7' | 8 => '8' | _ => '9'

/-- Digit value of a character, as consumed by `int()`; `none` for
non-digit characters (on which `int()` raises `ValueError`). -/
def charDigit (c : Char) : Option Nat :=
  if 48 ≤ c.toNat ∧ c.toNat ≤ 57 then some (c.toNat - 48) else none

theorem charDigit_digitChar (d : Nat) (h : d < 10) :
    charDigit (digitChar d) = some d := by
  interval_cases d <;> decide

/-- Decimal rendering of a natural number: the characters of `"%d" % n`. -/
def natChars (n : Nat) : List Char :=
  (natDigits n).map digitChar

/-- Digit values of a character list, or `none` if some character is not a
digit. -/
def charsDigits : List Char → Option (List Nat)
  | [] => some []
  | c :: cs =>
    match charDigit c, charsDigits cs with
    | some d, some ds => some (d :: ds)
    | _, _ => none

/-- Embedding of `int()` applied to a token substring, restricted to plain
digit strings (the only form the codec emits): `none` models the
`ValueError` raised on anything else. -/
def pyIntChars (cs : List Char) : Option Nat :=
  match charsDigits cs with
  | some ds => if ds.isEmpty then none else some (digitsVal ds)
  | none => none

theorem charsDigits_map (ds : List Nat) (h : ∀ d ∈ ds, d < 10) :
    charsDigits (ds.map digitChar) = some ds := by
  induction ds with
  | nil => rfl
  | cons d rest ih =>
    simp [charsDigits, charDigit_digitChar d (h d (by simp)),
      ih fun x hx => h x (by simp [hx])]

theorem pyIntChars_natChars (n : Nat) : pyIntChars (natChars n) = some n := by
  rw [pyIntChars, natChars, charsDigits_map _ (natDigits_lt_ten n)]
  simp [natDigits_ne_nil n, List.isEmpty_iff, digitsVal_natDigits]

/-- Base64 alphabet (RFC 4648, as used by `base64.b64encode`): the 26
uppercase letters, the 26 lowercase letters, the 10 digits, then `+` and
`/`. -/
def b64Alphabet : List Char :=
  ((List.range 26).map fun i => Char.ofNat (65 + i)) ++
    ((List.range 26).map fun i => Char.ofNat (97 + i)) ++
    ((List.range 10).map fun i => Char.ofNat (48 + i)) ++ ['+', '/']

/-- Alphabet character of a 6-bit group. -/
def sixChar (i : Nat) : Char :=
  b64Alphabet.getD i '='

/-- 6-bit group of an alphabet character, `none` for characters outside the
alphabet. -/
def charSix (c : Char) : Option Nat :=
  b64Alphabet.indexOf? c

theorem charSix_sixChar (i : Nat) (h : i < 64) :
    charSix (sixChar i) = some i := by
  have : ∀ j, j < 64 → charSix (sixChar j) = some j := by decide
  exact this i h

/-- Embedding of `base64.b64encode` on byte lists: three bytes become four
alphabet characters; a final group of one or two bytes is padded with
`=`. -/
def b64encode : List Nat → List Char
  | [] => []
  | [b1] => [sixChar (b1 / 4), sixChar (b1 % 4 * 16), '=', '=']
  | [b1, b2] =>
      [sixChar (b1 / 4), sixChar (b1 % 4 * 16 + b2 / 16),
       sixChar (b2 % 16 * 4), '=']
  | b1 :: b2 :: b3 :: rest =>
      sixChar (b1 / 4) :: sixChar (b1 % 4 * 16 + b2 / 16) ::
      sixChar (b2 % 16 * 4 + b3 / 64) :: sixChar (b3 % 64) ::
      b64encode rest

theorem sixChar_ne_pad (i : Nat) (h : i < 64) : sixChar i ≠ '=' := by
  have : ∀ j, j < 64 → sixChar j ≠ '=' := by decide
  exact this i h

/-- Embedding of `base64.b64decode` restricted to well-padded input in the
alphabet: input is consumed in quartets, with `=` padding recognised only
in the final quartet; `none` models the `binascii.Error` (a `ValueError`)
raised otherwise. -/
def b64decode : List Char → Option (List Nat)
  | [] => some []
  | c1 :: c2 :: c3 :: c4 :: rest =>
    if rest.isEmpty ∧ c3 = '=' ∧ c4 = '=' then
      match charSix c1, charSix c2 with
      | some s1, some s2 => some [s1 * 4 + s2 / 16]
      | _, _ => none
    else if rest.isEmpty ∧ c4 = '=' then
      match charSix c1, charSix c2, charSix c3 with
      | some s1, some s2, some s3 =>
          some [s1 * 4 + s2 / 16, s2 % 16 * 16 + s3 / 4]
      | _, _, _ => none
    else
      match charSix c1, charSix c2, charSix c3, charSix c4,
        b64decode rest with
      | some s1, some s2, some s3, some s4, some tail =>
          some ((s1 * 4 + s2 / 16) :: (s2 % 16 * 16 + s3 / 4) ::
                (s3 % 4 * 64 + s4) :: tail)
      | _, _, _, _, _ => none
  | _ => none

theorem b64_roundtrip :
    ∀ bs : List Nat, (∀ b ∈ bs, b < 256) →
      b64decode (b64encode bs) = some bs
  | [], _ => rfl
  | [b1], h => by
    have h1 : b1 < 256 := h b1 (by simp)
    rw [b64encode, b64decode]
    rw [if_pos (by simp), charSix_sixChar _ (by omega),
      charSix_sixChar _ (by omega)]
    simp only [Option.some.injEq, List.cons.injEq, and_true]
    omega
  | [b1, b2], h => by
    have h1 : b1 < 256 := h b1 (by simp)
    have h2 : b2 < 256 := h b2 (by simp)
    rw [b64encode, b64decode]
    rw [if_neg (by simp [sixChar_ne_pad (b2 % 16 * 4) (by omega)]),
      if_pos (by simp), charSix_sixChar _ (by omega),
      charSix_sixChar _ (by omega), charSix_sixChar _ (by omega)]
    simp only [Option.some.injEq, List.cons.injEq, and_true]
    exact ⟨by omega, by omega⟩
  | b1 :: b2 :: b3 :: rest, h => by
    have h1 : b1 < 256 := h b1 (by simp)
    have h2 : b2 < 256 := h b2 (by simp)
    have h3 : b3 < 256 := h b3 (by simp)
    have ih := b64_roundtrip rest fun b hb => h b (by simp [hb])
    rw [b64encode, b64decode]
    rw [if_neg (by simp [sixChar_ne_pad (b2 % 16 * 4 + b3 / 64) (by omega)]),
      if_neg (by simp [sixChar_ne_pad (b3 % 64) (by omega)]),
      charSix_sixChar _ (by omega), charSix_sixChar _ (by omega),
      charSix_sixChar _ (by omega), charSix_sixChar _ (by omega), ih]
    simp only [Option.some.injEq, List.cons.injEq, and_true]
    exact ⟨by omega, by omega, by omega⟩

/-! ## Identifier codec (dobbin/database.py lines 97-116 and 139-176) -/

/-- Model of `pickle.dumps((oid, obj._p_class))` (database.py line 153),
restricted to (int, class) pairs: a concrete self-delimiting byte encoding
standing in for the pickle wire format, carrying exactly the two fields (a
class is identified by its qualified-name bytes).  The development relies
only on the inversion property `loads (dumps x) = x`, which pickle
provides. -/
def pickleDumpsPair (oid : Nat) (cls : List Nat) : List Nat :=
  (natDigits oid).map (48 + ·) ++ 58 :: cls

/-- Model of `pickle.loads` on the output format of `pickleDumpsPair`:
`none` stands for `pickle.UnpicklingError` on anything else. -/
def pickleLoadsPair (bs : List Nat) : Option (Nat × List Nat) :=
  let ds := bs.takeWhile (· ≠ 58)
  match bs.dropWhile (· ≠ 58) with
  | 58 :: cls =>
    if ds ≠ [] ∧ ds.all (fun b => 48 ≤ b ∧ b < 58) then
      some (digitsVal (ds.map (· - 48)), cls)
    else none
  | _ => none

theorem takeWhile_all_sat {α : Type} {p : α → Bool} :
    ∀ l : List α, (∀ x ∈ l, p x = true) → l.takeWhile p = l
  | [], _ => rfl
  | x :: xs, h => by
    rw [List.takeWhile_cons, h x (by simp),
      takeWhile_all_sat xs fun y hy => h y (by simp [hy])]
    simp

theorem split_at_58 (ds cls : List Nat)
    (h : ∀ b ∈ ds, (decide (b ≠ 58)) = true) :
    ((ds ++ 58 :: cls).takeWhile (fun b => decide (b ≠ 58)) = ds) ∧
    ((ds ++ 58 :: cls).dropWhile (fun b => decide (b ≠ 58)) = 58 :: cls) := by
  induction ds with
  | nil =>
    constructor
    · rw [List.nil_append, List.takeWhile_cons]
      simp
    · rw [List.nil_append, List.dropWhile_cons]
      simp
  | cons d rest ih =>
    have ih' := ih fun y hy => h y (by simp [hy])
    constructor
    · rw [List.cons_append, List.takeWhile_cons, h d (by simp), if_pos rfl,
        ih'.1]
    · rw [List.cons_append, List.dropWhile_cons, h d (by simp), if_pos rfl,
        ih'.2]

theorem pickle_pair_roundtrip (oid : Nat) (cls : List Nat) :
    pickleLoadsPair (pickleDumpsPair oid cls) = some (oid, cls) := by
  have hds : ∀ b ∈ (natDigits oid).map (48 + ·),
      (decide (b ≠ 58)) = true := by
    intro b hb
    simp only [List.mem_map] at hb
    obtain ⟨d, hd, rfl⟩ := hb
    have := natDigits_lt_ten oid d hd
    simp only [decide_eq_true_eq]
    omega
  have hsplit := split_at_58 ((natDigits oid).map (48 + ·)) cls hds
  rw [pickleLoadsPair, pickleDumpsPair]
  simp only [hsplit.1, hsplit.2]
  rw [if_pos]
  · have hmap : ((natDigits oid).map (48 + ·)).map (· - 48) =
        natDigits oid := by
      rw [List.map_map]
      rw [List.map_congr_left (g := id) (by intro d _; simp)]
      exact List.map_id _
    rw [hmap, digitsVal_natDigits]
  · constructor
    · intro hnil
      exact natDigits_ne_nil oid (by simpa using hnil)
    · rw [List.all_eq_true]
      intro b hb
      simp only [List.mem_map] at hb
      obtain ⟨d, hd, rfl⟩ := hb
      have := natDigits_lt_ten oid d hd
      simp only [decide_eq_true_eq]
      omega

/-- Reference recovered by the log reader's `load` closure (database.py
lines 97-113): either an object reference (oid plus class) or a stream
range (offset, length). -/
inductive RefVal where
  | oidRef (oid : Nat) (cls : List Nat)
  | fileRef (offset length : Nat)
deriving DecidableEq, Repr

/-- Token produced by `persistent_id` for a persistent object reference
(database.py lines 149-156): `"oid://%s" % base64.b64encode(pickle.dumps((
oid, obj._p_class)))`. -/
def encodeOidToken (oid : Nat) (cls : List Nat) : List Char :=
  'o' :: 'i' :: 'd' :: ':' :: '/' :: '/' ::
    b64encode (pickleDumpsPair oid cls)

/-- Token produced by `persistent_id` for a stream reference (database.py
lines 158-159 and 170): `"file://%d:%d" % (offset, length)`. -/
def encodeFileToken (offset length : Nat) : List Char :=
  'f' :: 'i' :: 'l' :: 'e' :: ':' :: '/' :: '/' ::
    (natChars offset ++ ':' :: natChars length)

/-- Scan for the first occurrence of the separator `://`, returning the
characters before it and the characters after it. -/
def findSep : List Char → Option (List Char × List Char)
  | [] => none
  | c :: rest =>
    if c = ':' ∧ rest.take 2 = ['/', '/'] then some ([], rest.drop 2)
    else (findSep rest).map (fun pr => (c :: pr.1, pr.2))

/-- Embedding of `re_id.match(oid)` for the anchored pattern
`(?P<protocol>[a-z]+)://(?P<token>.+)` (database.py line 37): the protocol
group is a nonempty run of lowercase letters immediately followed by
`://`, and the token group is the nonempty remainder of the line (`.`
does not match a newline).  `none` models a failed match. -/
def reMatch (s : List Char) : Option (List Char × List Char) :=
  match findSep s with
  | some (pre, post) =>
    let token := post.takeWhile (fun c => decide (c ≠ '\n'))
    if pre ≠ [] ∧ (pre.all fun c => 'a' ≤ c ∧ c ≤ 'z') ∧ token ≠ [] then
      some (pre, token)
    else none
  | none => none

/-- Embedding of `str.split(':')`. -/
def pySplitColon : List Char → List (List Char)
  | [] => [[]]
  | c :: rest =>
    if c = ':' then [] :: pySplitColon rest
    else
      match pySplitColon rest with
      | h :: t => (c :: h) :: t
      | [] => [[c]]

/-- Embedding of the `load` closure of `Database.read` (database.py lines
97-114) on an identifier token.  A failed regex match raises
`ValueError('Protocol mismatch')`; scheme `oid` base64-decodes the token
(`binascii.Error` is a `ValueError`) and unpickles the (oid, class) pair;
scheme `file` splits the token on `:` and parses two decimal integers
(`int()` failures and a wrong number of fields are `ValueError`s); any
other scheme raises `ValueError('Unknown protocol')` — not
`IntegrityError`. -/
def decodeIdToken (s : List Char) : Except PyError RefVal :=
  match reMatch s with
  | none => .error .valueError
  | some (proto, token) =>
    if proto = ['o', 'i', 'd'] then
      match b64decode token with
      | none => .error .valueError
      | some p =>
        match pickleLoadsPair p with
        | some pair => .ok (.oidRef pair.1 pair.2)
        | none => .error .unpicklingError
    else if proto = ['f', 'i', 'l', 'e'] then
      match pySplitColon token with
      | [a, b] =>
        match pyIntChars a, pyIntChars b with
        | some x, some y => .ok (.fileRef x y)
        | _, _ => .error .valueError
      | _ => .error .valueError
    else .error .valueError

theorem sixChar_ne_newline (i : Nat) : sixChar i ≠ '\n' := by
  by_cases h : i < 64
  · have : ∀ j, j < 64 → sixChar j ≠ '\n' := by decide
    exact this i h
  · rw [sixChar, List.getD_eq_default]
    · decide
    · have : b64Alphabet.length = 64 := by decide
      omega

theorem b64encode_ne_newline :
    ∀ bs : List Nat, ∀ c ∈ b64encode bs, c ≠ '\n'
  | [] => by simp [b64encode]
  | [b1] => by
    intro c hc
    simp only [b64encode, List.mem_cons, List.not_mem_nil, or_false] at hc
    rcases hc with rfl | rfl | rfl | rfl
    · exact sixChar_ne_newline _
    · exact sixChar_ne_newline _
    · decide
    · decide
  | [b1, b2] => by
    intro c hc
    simp only [b64encode, List.mem_cons, List.not_mem_nil, or_false] at hc
    rcases hc with rfl | rfl | rfl | rfl
    · exact sixChar_ne_newline _
    · exact sixChar_ne_newline _
    · exact sixChar_ne_newline _
    · decide
  | b1 :: b2 :: b3 :: rest => by
    intro c hc
    simp only [b64encode, List.mem_cons] at hc
    rcases hc with rfl | rfl | rfl | rfl | hm
    · exact sixChar_ne_newline _
    · exact sixChar_ne_newline _
    · exact sixChar_ne_newline _
    · exact sixChar_ne_newline _
    · exact b64encode_ne_newline rest c hm

theorem b64encode_ne_nil :
    ∀ bs : List Nat, bs ≠ [] → b64encode bs ≠ []
  | [], h => absurd rfl h
  | [_], _ => by simp [b64encode]
  | [_, _], _ => by simp [b64encode]
  | _ :: _ :: _ :: _, _ => by simp [b64encode]

theorem pickleDumpsPair_lt (oid : Nat) (cls : List Nat)
    (hcls : ∀ b ∈ cls, b < 256) :
    ∀ b ∈ pickleDumpsPair oid cls, b < 256 := by
  intro b hb
  rw [pickleDumpsPair] at hb
  rcases List.mem_append.1 hb with h | h
  · simp only [List.mem_map] at h
    obtain ⟨d, hd, rfl⟩ := h
    have := natDigits_lt_ten oid d hd
    omega
  · rcases List.mem_cons.1 h with rfl | h
    · omega
    · exact hcls b h

theorem pickleDumpsPair_ne_nil (oid : Nat) (cls : List Nat) :
    pickleDumpsPair oid cls ≠ [] := by
  rw [pickleDumpsPair]
  simp

theorem digitChar_ne_newline (d : Nat) : digitChar d ≠ '\n' := by
  unfold digitChar
  split <;> decide

theorem digitChar_ne_colon (d : Nat) : digitChar d ≠ ':' := by
  unfold digitChar
  split <;> decide

theorem pySplitColon_no_colon :
    ∀ xs : List Char, (∀ c ∈ xs, c ≠ ':') → pySplitColon xs = [xs]
  | [], _ => rfl
  | c :: rest, h => by
    rw [pySplitColon, if_neg (h c (by simp)),
      pySplitColon_no_colon rest fun y hy => h y (by simp [hy])]

theorem pySplitColon_append (xs ys : List Char)
    (h : ∀ c ∈ xs, c ≠ ':') :
    pySplitColon (xs ++ ':' :: ys) = xs :: pySplitColon ys := by
  induction xs with
  | nil =>
    rw [List.nil_append, pySplitColon, if_pos rfl]
  | cons c rest ih =>
    rw [List.cons_append, pySplitColon, if_neg (h c (by simp)),
      ih fun y hy => h y (by simp [hy])]

/-- C4: the identifier-token codec round-trips.  An `oid://` token built by
`persistent_id` from an oid and a class (with byte-valued name) decodes to
exactly that pair, and a `file://offset:length` token decodes to exactly
that offset and length. -/
theorem C4_reference_roundtrip :
    (∀ (oid : Nat) (cls : List Nat), (∀ b ∈ cls, b < 256) →
      decodeIdToken (encodeOidToken oid cls) = .ok (.oidRef oid cls)) ∧
    (∀ offset length : Nat,
      decodeIdToken (encodeFileToken offset length) =
        .ok (.fileRef offset length)) := by
  constructor
  · intro oid cls hcls
    have hfind : findSep (encodeOidToken oid cls) =
        some (['o', 'i', 'd'], b64encode (pickleDumpsPair oid cls)) := by
      simp [encodeOidToken, findSep]
    have hnl : (b64encode (pickleDumpsPair oid cls)).takeWhile
        (fun c => decide (c ≠ '\n')) = b64encode (pickleDumpsPair oid cls) :=
      takeWhile_all_sat _ fun c hc => by
        simpa using b64encode_ne_newline _ c hc
    have hne : b64encode (pickleDumpsPair oid cls) ≠ [] :=
      b64encode_ne_nil _ (pickleDumpsPair_ne_nil oid cls)
    have hre : reMatch (encodeOidToken oid cls) =
        some (['o', 'i', 'd'], b64encode (pickleDumpsPair oid cls)) := by
      simp only [reMatch, hfind, hnl]
      rw [if_pos ⟨by simp, by decide, hne⟩]
    simp [decodeIdToken, hre,
      b64_roundtrip _ (pickleDumpsPair_lt oid cls hcls),
      pickle_pair_roundtrip]
  · intro offset length
    have hdig : ∀ n : Nat, ∀ c ∈ natChars n, c ≠ ':' ∧ c ≠ '\n' := by
      intro n c hc
      simp only [natChars, List.mem_map] at hc
      obtain ⟨d, _, rfl⟩ := hc
      exact ⟨digitChar_ne_colon d, digitChar_ne_newline d⟩
    have hfind : findSep (encodeFileToken offset length) =
        some (['f', 'i', 'l', 'e'],
          natChars offset ++ ':' :: natChars length) := by
      simp [encodeFileToken, findSep]
    have hnl : (natChars offset ++ ':' :: natChars length).takeWhile
        (fun c => decide (c ≠ '\n')) =
        natChars offset ++ ':' :: natChars length := by
      refine takeWhile_all_sat _ fun c hc => by
        rcases List.mem_append.1 hc with h | h
        · simpa using (hdig offset c h).2
        · rcases List.mem_cons.1 h with rfl | h
          · decide
          · simpa using (hdig length c h).2
    have hre : reMatch (encodeFileToken offset length) =
        some (['f', 'i', 'l', 'e'],
          natChars offset ++ ':' :: natChars length) := by
      simp only [reMatch, hfind, hnl]
      rw [if_pos ⟨by simp, by decide, by simp⟩]
    simp [decodeIdToken, hre,
      pySplitColon_append _ _ fun c hc => (hdig offset c hc).1,
      pySplitColon_no_colon _ fun c hc => (hdig length c hc).1,
      pyIntChars_natChars]

/-- Witness for `C4_reference_roundtrip`: the token built from oid 7 and a
two-byte class name decodes to that pair, and `file://5:12` decodes to
(5, 12). -/
theorem C4_reference_roundtrip_witness :
    decodeIdToken (encodeOidToken 7 [65, 66]) = .ok (.oidRef 7 [65, 66]) ∧
    decodeIdToken (encodeFileToken 5 12) = .ok (.fileRef 5 12) :=
  ⟨C4_reference_roundtrip.1 7 [65, 66] (by decide),
   C4_reference_roundtrip.2 5 12⟩

/-- Discriminator: does a `load` outcome consist of a raised
`IntegrityError`? -/
def raisesIntegrityError (r : Except PyError RefVal) : Bool :=
  match r with
  | .error (.integrityError _) => true
  | _ => false

/-- C6 counterexample: decoding the unknown-scheme token `zap://x` (and a
token with no `://` form at all) raises `ValueError`, not
`IntegrityError` as the claim states. -/
theorem C6_counterexample :
    decodeIdToken ['z', 'a', 'p', ':', '/', '/', 'x'] =
        .error .valueError ∧
    raisesIntegrityError
        (decodeIdToken ['z', 'a', 'p', ':', '/', '/', 'x']) = false ∧
    decodeIdToken ['n', 'o', 'u', 'r', 'l'] = .error .valueError ∧
    raisesIntegrityError
        (decodeIdToken ['n', 'o', 'u', 'r', 'l']) = false := by
  refine ⟨rfl, rfl, rfl, rfl⟩

/-- C6 (amended): decoding a persistent-reference token whose form does not
match `<scheme>://<token>`, or whose scheme is neither `oid` nor `file`,
raises `ValueError` (`'Protocol mismatch'` / `'Unknown protocol'`), for
every such malformed token. -/
theorem C6_malformed_token (s proto token : List Char) :
    (reMatch s = none → decodeIdToken s = .error .valueError) ∧
    (reMatch s = some (proto, token) → proto ≠ ['o', 'i', 'd'] →
      proto ≠ ['f', 'i', 'l', 'e'] →
      decodeIdToken s = .error .valueError) := by
  constructor
  · intro h
    rw [decodeIdToken, h]
  · intro h hp hf
    rw [decodeIdToken, h]
    simp [hp, hf]

/-- Witness for `C6_malformed_token` at the tokens `zap://x` (unknown
scheme) and `nourl` (no separator). -/
theorem C6_malformed_token_witness :
    decodeIdToken ['z', 'a', 'p', ':', '/', '/', 'x'] =
        .error .valueError ∧
    decodeIdToken ['n', 'o', 'u', 'r', 'l'] = .error .valueError :=
  ⟨(C6_malformed_token ['z', 'a', 'p', ':', '/', '/', 'x'] ['z', 'a', 'p']
      ['x']).2 rfl (by decide) (by decide),
   (C6_malformed_token ['n', 'o', 'u', 'r', 'l'] [] []).1 rfl⟩

/-! ## Transaction log read path (dobbin/database.py lines 77-137) -/

/-- On-disk transaction record (database.py `TransactionRecord`). -/
structure TxRecord where
  timestamp : Timestamp
  status : Bool
deriving DecidableEq, Repr

/-- Payload of a VERSION segment: (oid, class tag, state); the state is an
opaque identifier. -/
structure VersionData where
  oid : Nat
  cls : List Nat
  state : Nat
deriving DecidableEq, Repr

/-- Log segment as laid out in the file (database.py lines 33-35): VERSION,
RECORD, or STREAM (a header followed by raw payload bytes that the reader
skips). -/
inductive Segment where
  | version (v : VersionData)
  | record (r : TxRecord)
  | stream (name : List Char) (payload : List Nat)
deriving DecidableEq, Repr

/-- Does a segment carry a version? -/
def isVersionSeg : Segment → Bool
  | .version _ => true
  | _ => false

/-- Embedding of the segment loop of `Database.read` (database.py lines
118-137) from a given list of already-accumulated version entries: VERSION
segments accumulate, a RECORD yields the record paired with the entries
accumulated since the previous record, STREAM segments are skipped.  If
entries remain at the end of the file, `IntegrityError("Transaction record
not found for %d entries.")` is raised after all complete transactions have
been yielded; the result pairs the yielded sequence with the optional
raised error. -/
def readLogAux : List Segment → List VersionData →
    List (TxRecord × List VersionData) × Option PyError
  | [], entries =>
    ([], if entries.isEmpty then none
         else some (.integrityError entries.length))
  | .version v :: rest, entries => readLogAux rest (entries ++ [v])
  | .record r :: rest, entries =>
    let out := readLogAux rest []
    ((r, entries) :: out.1, out.2)
  | .stream _ _ :: rest, entries => readLogAux rest entries

/-- Embedding of `Database.read` on the segments from the starting offset
to the mapped size. -/
def readLog (segs : List Segment) :
    List (TxRecord × List VersionData) × Option PyError :=
  readLogAux segs []

/-- Number of versions still unattributed after processing the segments,
starting from `k` accumulated entries. -/
def pendingCount : List Segment → Nat → Nat
  | [], k => k
  | .version _ :: rest, k => pendingCount rest (k + 1)
  | .record _ :: rest, _ => pendingCount rest 0
  | .stream _ _ :: rest, k => pendingCount rest k

theorem readLogAux_err (segs : List Segment) :
    ∀ entries, (readLogAux segs entries).2 =
      if pendingCount segs entries.length = 0 then none
      else some (.integrityError (pendingCount segs entries.length)) := by
  induction segs with
  | nil =>
    intro entries
    simp [readLogAux, pendingCount, List.isEmpty_iff, List.length_eq_zero]
  | cons s rest ih =>
    intro entries
    cases s with
    | version v =>
      rw [readLogAux, pendingCount, ih (entries ++ [v])]
      simp
    | record r =>
      rw [readLogAux, pendingCount]
      exact ih []
    | stream n p =>
      rw [readLogAux, pendingCount]
      exact ih entries

theorem readLogAux_all_versions (vs : List Segment)
    (hvs : ∀ s ∈ vs, isVersionSeg s = true) :
    ∀ entries, (readLogAux vs entries).1 = [] := by
  induction vs with
  | nil => intro entries; rfl
  | cons s rest ih =>
    intro entries
    cases s with
    | version v =>
      rw [readLogAux]
      exact ih (fun x hx => hvs x (by simp [hx])) (entries ++ [v])
    | record r => exact absurd (hvs (.record r) (by simp)) (by simp [isVersionSeg])
    | stream n p => exact absurd (hvs (.stream n p) (by simp)) (by simp [isVersionSeg])

theorem readLogAux_append_versions (vs : List Segment)
    (hvs : ∀ s ∈ vs, isVersionSeg s = true) :
    ∀ (pre : List Segment) (entries : List VersionData),
      (readLogAux (pre ++ vs) entries).1 = (readLogAux pre entries).1 := by
  intro pre
  induction pre with
  | nil =>
    intro entries
    rw [List.nil_append, readLogAux_all_versions vs hvs entries]
    rfl
  | cons s rest ih =>
    intro entries
    cases s with
    | version v =>
      rw [List.cons_append, readLogAux, readLogAux]
      exact ih (entries ++ [v])
    | record r =>
      rw [List.cons_append, readLogAux, readLogAux]
      simp only [List.cons.injEq, true_and]
      exact ih []
    | stream n p =>
      rw [List.cons_append, readLogAux, readLogAux]
      exact ih entries

theorem pendingCount_append (pre vs : List Segment) :
    ∀ k, pendingCount (pre ++ vs) k = pendingCount vs (pendingCount pre k) := by
  induction pre with
  | nil => intro k; rfl
  | cons s rest ih =>
    intro k
    cases s with
    | version v => rw [List.cons_append, pendingCount, pendingCount, ih]
    | record r => rw [List.cons_append, pendingCount, pendingCount, ih]
    | stream n p => rw [List.cons_append, pendingCount, pendingCount, ih]

theorem pendingCount_all_versions (vs : List Segment)
    (hvs : ∀ s ∈ vs, isVersionSeg s = true) :
    ∀ k, pendingCount vs k = k + vs.length := by
  induction vs with
  | nil => intro k; rfl
  | cons s rest ih =>
    intro k
    cases s with
    | version v =>
      rw [pendingCount, ih fun x hx => hvs x (by simp [hx])]
      simp
      omega
    | record r => exact absurd (hvs (.record r) (by simp)) (by simp [isVersionSeg])
    | stream n p => exact absurd (hvs (.stream n p) (by simp)) (by simp [isVersionSeg])

/-- C5: reading a log whose tail consists of version segments with no
closing record yields exactly the record-terminated transactions of the
well-terminated prefix — never the trailing versions — and raises
`IntegrityError` reporting the count of the unattributed versions. -/
theorem C5_trailing_versions (pre vs : List Segment)
    (hvs : ∀ s ∈ vs, isVersionSeg s = true) (hne : vs ≠ [])
    (hpre : (readLog pre).2 = none) :
    (readLog (pre ++ vs)).1 = (readLog pre).1 ∧
    (readLog (pre ++ vs)).2 = some (.integrityError vs.length) := by
  have hp0 : pendingCount pre 0 = 0 := by
    have := readLogAux_err pre []
    rw [readLog] at hpre
    rw [hpre] at this
    by_cases h : pendingCount pre 0 = 0
    · exact h
    · rw [if_neg (by simpa using h)] at this
      exact absurd this (by simp)
  constructor
  · exact readLogAux_append_versions vs hvs pre []
  · rw [readLog, readLogAux_err (pre ++ vs) []]
    rw [show ([] : List VersionData).length = 0 from rfl,
      pendingCount_append pre vs 0, hp0,
      pendingCount_all_versions vs hvs 0]
    have : vs.length ≠ 0 := fun h => hne (List.length_eq_zero.1 h)
    rw [if_neg (by omega)]
    simp

/-- Witness for `C5_trailing_versions`: a log holding one committed
transaction (one version plus its record) followed by a single orphaned
version yields only the committed transaction and reports one unattributed
entry. -/
theorem C5_trailing_versions_witness :
    (readLog [.version ⟨1, [67], 0⟩, .record ⟨1, true⟩,
        .version ⟨1, [67], 1⟩]).1 = [(⟨1, true⟩, [⟨1, [67], 0⟩])] ∧
    (readLog [.version ⟨1, [67], 0⟩, .record ⟨1, true⟩,
        .version ⟨1, [67], 1⟩]).2 = some (.integrityError 1) := by
  have h := C5_trailing_versions
    [.version ⟨1, [67], 0⟩, .record ⟨1, true⟩] [.version ⟨1, [67], 1⟩]
    (by intro s hs; simp only [List.mem_singleton] at hs; simp [hs, isVersionSeg])
    (by simp) (by rfl)
  exact ⟨by rw [show ([.version ⟨1, [67], 0⟩, .record ⟨1, true⟩,
      .version ⟨1, [67], 1⟩] : List Segment) =
      [.version ⟨1, [67], 0⟩, .record ⟨1, true⟩] ++ [.version ⟨1, [67], 1⟩]
      from rfl, h.1]; rfl,
    by rw [show ([.version ⟨1, [67], 0⟩, .record ⟨1, true⟩,
      .version ⟨1, [67], 1⟩] : List Segment) =
      [.version ⟨1, [67], 0⟩, .record ⟨1, true⟩] ++ [.version ⟨1, [67], 1⟩]
      from rfl, h.2]; rfl⟩

/-! ## WorkingCopyDict (dobbin/persistent.py lines 319-543)

Python objects appearing as keys or values of a checked-out persistent
dictionary are modelled as atomic values compared by equality (`deepcopy`
of such a value is the value itself); the module-level bookkeeping
sentinels `EMPTY`, `DELETE` and `IGNORE` are distinguished constructors.
The thread's working copy (`self.__dict__`) and the shared state
(`self._p_dict`) are association lists with the dictionary's insertion
order. -/

/-- Python value in a working-copy or shared dictionary. -/
inductive Obj where
  | reg (n : Nat)
  | boolTrue
  | emptyM
  | deleteM
  | ignoreM
deriving DecidableEq, Repr

/-- Dictionary lookup on an association list (`dict.get`). -/
def lookupAssoc (l : List (Obj × Obj)) (k : Obj) : Option Obj :=
  (l.find? (fun e => e.1 = k)).map (·.2)

/-- Embedding of `WorkingCopyDict.__iter__` (persistent.py lines 396-414).
The first loop walks the working-copy items, skipping pairs whose KEY is
the `IGNORE` sentinel, yielding every key that is not itself the `DELETE`
sentinel, and recording walked keys; the second loop yields the shared
keys not already recorded (`deepcopy` of an atomic key is itself).  Note
the loop tests compare the sentinels against the keys, not against the
stored values. -/
def wcIter (wcopy : List (Obj × Obj)) (shared : List Obj) : List Obj :=
  let keys := (wcopy.filter (fun kv => kv.1 ≠ .ignoreM)).map (·.1)
  let yielded := (wcopy.filter
    (fun kv => kv.1 ≠ .ignoreM ∧ kv.1 ≠ .deleteM)).map (·.1)
  yielded ++ shared.filter (fun k => ¬ keys.contains k)

/-- Embedding of `WorkingCopyDict.__contains__` (persistent.py lines
359-366): a working-copy entry whose value is `DELETE` reports absent, any
other working-copy entry reports present, and otherwise the SHARED
dictionary is consulted — with no check of the `EMPTY` sentinel. -/
def wcContains (wcopy shared : List (Obj × Obj)) (key : Obj) : Bool :=
  match lookupAssoc wcopy key with
  | some v => if v = .deleteM then false else true
  | none => (lookupAssoc shared key).isSome

/-- Embedding of `WorkingCopyDict.__getitem__` (persistent.py lines
371-391): a working-copy value of `DELETE` raises `KeyError`; a value
other than `IGNORE` is returned; otherwise, unless the working copy holds
the `EMPTY` sentinel as a key, the value is deep-copied out of the shared
state (the identity on our atomic values, so the working copy is left
unchanged); with `EMPTY` present, `KeyError` is raised. -/
def wcGetitem (wcopy shared : List (Obj × Obj)) (key : Obj) :
    Except PyError Obj :=
  let sharedPath : Except PyError Obj :=
    if (lookupAssoc wcopy .emptyM).isSome then .error .keyError
    else
      match lookupAssoc shared key with
      | some v => .ok v
      | none => .error .keyError
  match lookupAssoc wcopy key with
  | some v =>
    if v = .deleteM then .error .keyError
    else if v = .ignoreM then sharedPath
    else .ok v
  | none => sharedPath

/-- Embedding of `WorkingCopyDict.get` (persistent.py lines 480-484). -/
def wcGet (wcopy shared : List (Obj × Obj)) (key default : Obj) : Obj :=
  match wcGetitem wcopy shared key with
  | .ok v => v
  | .error _ => default

/-- Embedding of `WorkingCopyDict.clear` (persistent.py lines 465-468):
the working copy is emptied and the `EMPTY` sentinel is stored under
itself as a key (`local[EMPTY] = True`). -/
def wcClear (_wcopy : List (Obj × Obj)) : List (Obj × Obj) :=
  [(.emptyM, .boolTrue)]

/-- C7: evaluation of `WorkingCopyDict.__iter__` at the failing inputs.
With working copy `{k: DELETE}` (key `k` deleted this transaction) and
shared state `{k: v}`, iteration yields `k` — the claim (and
`__contains__`/`pop`, which treat a `DELETE` value as absent) requires it
suppressed, and `items()` even raises `KeyError` on the yielded key.  With
working copy `{EMPTY: True}` (after `clear()`) and shared key `a`,
iteration yields the `EMPTY` sentinel itself followed by `a` — the claim
requires shared keys to be omitted entirely.  The loops compare the
sentinels against keys where the data model stores them as values. -/
theorem C7_iter_behavior :
    wcIter [(.reg 0, .deleteM)] [.reg 0] = [.reg 0] ∧
    wcIter [(.emptyM, .boolTrue)] [.reg 1] = [.emptyM, .reg 1] ∧
    wcContains [(.reg 0, .deleteM)] [(.reg 0, .reg 2)] (.reg 0) = false ∧
    wcGetitem [(.reg 0, .deleteM)] [(.reg 0, .reg 2)] (.reg 0) =
      .error .keyError := by
  refine ⟨rfl, rfl, rfl, rfl⟩

/-- C8: evaluation of the working-copy read operations after `clear()`.
With working copy `{EMPTY: True}` and shared state `{k: v}`, item lookup
raises `KeyError` and `get` returns its default, as the claim says — but
the membership test still consults the shared state and reports the key
present, because `__contains__` never checks the `EMPTY` sentinel.  The
inconsistent pair (`k in d` true, `d[k]` raising) contradicts the mapping
contract the class implements elsewhere. -/
theorem C8_clear_behavior :
    wcClear [(.reg 5, .reg 6)] = [(.emptyM, .boolTrue)] ∧
    wcGetitem [(.emptyM, .boolTrue)] [(.reg 0, .reg 1)] (.reg 0) =
      .error .keyError ∧
    wcGet [(.emptyM, .boolTrue)] [(.reg 0, .reg 1)] (.reg 0) (.reg 9) =
      .reg 9 ∧
    wcContains [(.emptyM, .boolTrue)] [(.reg 0, .reg 1)] (.reg 0) = true := by
  refine ⟨rfl, rfl, rfl, rfl⟩

/-! ## checkout and Manager._register (dobbin/persistent.py lines 30-43,
dobbin/manager.py lines 282-293) -/

/-- Thread-and-object state touched by `Manager._register`: the thread's
set of registered objects (by oid-like identity), each object's `_p_count`
attribute — `none` when the attribute has never been set: `grep` over the
package shows `_p_count` is read, incremented and decremented in
manager.py only, and no class supplies a default — plus the thread's
`needs_to_join` flag and transaction timestamp. -/
structure RegState where
  registered : List Nat
  pcount : Nat → Option Nat
  needsToJoin : Bool
  threadTs : Option Timestamp

/-- Embedding of `Manager._register` (manager.py lines 282-293), the
registration step performed by `checkout(obj)` via `jar.save(obj)` for an
object attached to a database.  After the join bookkeeping, an object not
yet in the thread's registered set is added to it and then
`obj._p_count += 1` executes: reading `_p_count` when the attribute is
absent raises `AttributeError` (the addition to `registered` has already
happened); otherwise the count is incremented.  An object already
registered by this thread is left untouched.  The result pairs the state
after the call with the exception raised, if any. -/
def registerObj (clockVal : Timestamp) (oid : Nat) (s : RegState) :
    RegState × Option PyError :=
  let s1 := if s.needsToJoin then
    { s with needsToJoin := false, threadTs := some clockVal } else s
  if s1.registered.contains oid then (s1, none)
  else
    let s2 := { s1 with registered := oid :: s1.registered }
    match s2.pcount oid with
    | none => (s2, some .attributeError)
    | some c =>
      ({ s2 with
          pcount := fun o => if o = oid then some (c + 1) else s2.pcount o },
        none)

/-- State of a freshly created persistent object: in no thread's registered
set, and with no `_p_count` attribute anywhere (no class in the package
defines a `_p_count` default, and `__getstate__` never serialises one). -/
def freshRegState : RegState :=
  { registered := [], pcount := fun _ => none, needsToJoin := true,
    threadTs := none }

/-- C9: evaluation of `checkout`/`_register` on a fresh database-attached
object.  The first call raises `AttributeError` while reading the
never-initialised `_p_count` (after having added the object to the
thread's registered set); every later call in the same thread finds the
object registered and returns without touching the count.  The reader
count is therefore never incremented at all — the spec's per-thread
boolean behaviour (and the `_p_count == 0` comparison in
`Manager._maybe_share_object`) presumes an initial value the code never
establishes. -/
theorem C9_register_behavior :
    (registerObj 1 5 freshRegState).2 = some .attributeError ∧
    (registerObj 1 5 freshRegState).1.registered = [5] ∧
    (registerObj 1 5 freshRegState).1.pcount 5 = none ∧
    (registerObj 2 5 (registerObj 1 5 freshRegState).1).2 = none ∧
    (registerObj 2 5 (registerObj 1 5 freshRegState).1).1.pcount 5 = none ∧
    (registerObj 2 5 (registerObj 1 5 freshRegState).1).1.registered =
      [5] := by
  refine ⟨rfl, rfl, rfl, rfl, rfl, rfl⟩

/-! ## PersistentStream (dobbin/database.py lines 349-448) -/

/-- Number of bytes per iteration chunk (database.py line 356). -/
def chunk_size : Nat := 32768

/-- Embedding of a binary file handle read, `f.read(n)`: the next `n`
bytes from the current position (`data` is the file content from that
position), or everything to the end of the file when `n` is negative. -/
def fileRead (data : List Nat) (n : Int) : List Nat :=
  if n < 0 then data else data.take n.toNat

/-- Embedding of `PersistentStream.read` (database.py lines 430-437) on an
open handle whose remaining content is `data`: `stream.read(min(size,
self.length))`, where an omitted `size` (Python `None`) defaults to
`self.length`. -/
def pstreamRead (length : Nat) (size : Option Int) (data : List Nat) :
    List Nat :=
  fileRead data (min (size.getD (length : Int)) (length : Int))

/-- Embedding of `PersistentStream.__iter__` (database.py lines 367-389)
from a fresh handle seeked to the segment offset (`data` is the file
content from there): while bytes remain, read
`read(min(chunk_size, remaining), f)` and yield it.  A Python iteration
that reads an empty chunk would loop forever without yielding further;
the embedding returns the chunks yielded up to that point. -/
def iterChunks (length : Nat) (data : List Nat) (remaining : Nat) :
    List (List Nat) :=
  if remaining = 0 then []
  else
    if _h : (pstreamRead length
        (some ((min chunk_size remaining : Nat) : Int)) data).length = 0
    then []
    else
      pstreamRead length (some ((min chunk_size remaining : Nat) : Int))
          data ::
        iterChunks length
          (data.drop (pstreamRead length
            (some ((min chunk_size remaining : Nat) : Int)) data).length)
          (remaining - (pstreamRead length
            (some ((min chunk_size remaining : Nat) : Int)) data).length)
termination_by remaining
decreasing_by omega

/-- Chunks yielded by one full iteration of a persistent stream of the
given length over `data`, the file content from the segment offset. -/
def psIter (length : Nat) (data : List Nat) : List (List Nat) :=
  iterChunks length data length

/-- C10 counterexample: `read` with the conventional negative size
(`read(-1)`, "read everything") escapes the length cap: on a stream of
length 1 over a file with 3 bytes remaining, `stream.read(min(-1, 1))` is
`stream.read(-1)` and returns all 3 bytes.  The claim says every `read`
returns at most `length` bytes. -/
theorem C10_counterexample :
    pstreamRead 1 (some (-1)) [7, 8, 9] = [7, 8, 9] ∧
    ¬ (pstreamRead 1 (some (-1)) [7, 8, 9]).length ≤ 1 := by
  refine ⟨rfl, by norm_num [pstreamRead, fileRead]⟩

theorem iterChunks_spec (length : Nat) :
    ∀ (remaining : Nat) (data : List Nat), remaining ≤ length →
      remaining ≤ data.length →
      (∀ c ∈ iterChunks length data remaining, c.length ≤ chunk_size) ∧
      ((iterChunks length data remaining).map List.length).sum =
        remaining := by
  intro remaining
  induction remaining using Nat.strong_induction_on with
  | _ remaining ih =>
    intro data hlen hdata
    rw [iterChunks.eq_def]
    by_cases h0 : remaining = 0
    · subst h0
      simp
    · rw [if_neg h0]
      have hcnt : min chunk_size remaining ≤ remaining :=
        Nat.min_le_right _ _
      have hpr : pstreamRead length
          (some ((min chunk_size remaining : Nat) : Int)) data =
          data.take (min chunk_size remaining) := by
        rw [pstreamRead]
        simp only [Option.getD_some]
        rw [min_eq_left (by exact_mod_cast le_trans hcnt hlen), fileRead,
          if_neg (not_lt.2 (Int.natCast_nonneg _))]
        simp
        omega
      have hlentake : (data.take (min chunk_size remaining)).length =
          min chunk_size remaining := by
        rw [List.length_take]
        exact min_eq_left (le_trans hcnt hdata)
      have hpos : 0 < min chunk_size remaining :=
        lt_min_iff.2 ⟨by norm_num [chunk_size], Nat.pos_of_ne_zero h0⟩
      simp only [hpr, hlentake]
      rw [dif_neg (by omega)]
      have hrec := ih (remaining - min chunk_size remaining) (by omega)
        (data.drop (min chunk_size remaining)) (by omega)
        (by rw [List.length_drop]; omega)
      constructor
      · intro c hc
        rcases List.mem_cons.1 hc with rfl | hm
        · rw [hlentake]
          exact Nat.min_le_left _ _
        · exact hrec.1 c hm
      · rw [List.map_cons, List.sum_cons, hlentake, hrec.2]
        omega

/-- C10 (amended): every `read(size)` with a non-negative (or omitted)
size returns at most `length` bytes, and iterating a stream whose
underlying file holds at least `length` bytes past the offset yields
chunks of at most `chunk_size` (32768) bytes each, whose lengths sum to
exactly `length`. -/
theorem C10_stream (length : Nat) (data : List Nat) :
    (∀ size : Option Int, (∀ s, size = some s → 0 ≤ s) →
      (pstreamRead length size data).length ≤ length)
    ∧ (length ≤ data.length →
        (∀ c ∈ psIter length data, c.length ≤ chunk_size) ∧
        ((psIter length data).map List.length).sum = length) := by
  constructor
  · intro size hsize
    rw [pstreamRead, fileRead]
    have h0 : (0 : Int) ≤ size.getD (length : Int) := by
      cases size with
      | none => simp
      | some s => simpa using hsize s rfl
    rw [if_neg (by omega)]
    rw [List.length_take]
    have : (min (size.getD (length : Int)) ((length : Nat) : Int)).toNat ≤
        length := by
      have hmin : min (size.getD (length : Int)) ((length : Nat) : Int) ≤
          ((length : Nat) : Int) := min_le_right _ _
      omega
    omega
  · intro hdata
    exact iterChunks_spec length length data le_rfl hdata

/-- Witness for `C10_stream` on a stream of length 2 over a 3-byte file
tail: an omitted-size read returns at most 2 bytes and iteration yields
chunks summing to 2. -/
theorem C10_stream_witness :
    (pstreamRead 2 none [4, 5, 6]).length ≤ 2 ∧
    ((psIter 2 [4, 5, 6]).map List.length).sum = 2 :=
  ⟨(C10_stream 2 [4, 5, 6]).1 none (fun s hs => by cases hs),
   ((C10_stream 2 [4, 5, 6]).2 (by norm_num)).2⟩

end Dobbin
